import Mathlib
set_option maxRecDepth 10000

/-!
Verification of the structured extraction and normalization pipeline of the
pdf-ocr repository, against its natural-language specification.  The Python
source `gemini-pdf_genai.py` is shallowly embedded below: Python values are
modelled by `PyVal`, `json.loads` by `json_loads`, the concrete regular
expression searches of `safe_extract_json` by dedicated scanning functions,
and the stateful retry loop and batch driver by explicit state passing.
-/
/-- Model of a Python value as produced by `json.loads` and handled by the
pipeline.  Floating point numbers are kept as their source lexeme: no claim
depends on float arithmetic.  Dictionaries are insertion-ordered key/value
lists with unique keys, as produced by the JSON decoder. -/
inductive PyVal where
  | str (s : String)
  | int (n : Int)
  | float (lexeme : String)
  | bool (b : Bool)
  | null
  | list (xs : List PyVal)
  | dict (entries : List (String × PyVal))

/-- Characters stripped by Python `str.strip()` (ASCII whitespace). -/
def pyIsSpaceChar (ch : Char) : Bool :=
  ch = ' ' || ch = '\t' || ch = '\n' || ch = '\r' || ch = '\x0b' || ch = '\x0c'

/-- Model of Python `str.strip()` on a character list. -/
def pyStrip (l : List Char) : List Char :=
  ((l.dropWhile pyIsSpaceChar).reverse.dropWhile pyIsSpaceChar).reverse

/-- JSON whitespace accepted by `json.loads` between tokens. -/
def jsonWs (ch : Char) : Bool :=
  ch = ' ' || ch = '\t' || ch = '\n' || ch = '\r'

def skipWs (l : List Char) : List Char := l.dropWhile jsonWs

def hexVal (ch : Char) : Option Nat :=
  if '0' ≤ ch ∧ ch ≤ '9' then some (ch.toNat - '0'.toNat)
  else if 'a' ≤ ch ∧ ch ≤ 'f' then some (ch.toNat - 'a'.toNat + 10)
  else if 'A' ≤ ch ∧ ch ≤ 'F' then some (ch.toNat - 'A'.toNat + 10)
  else none

/-- Body of a JSON string, after the opening quote: returns the decoded
characters and the input remaining after the closing quote.  Python accepts
the short escapes and `\uXXXX`; raw control characters are rejected.
Surrogate code points are rejected (they are not representable in `Char`;
no input in this development contains them). -/
def parseStringBody : Nat → List Char → Option (List Char × List Char)
  | 0, _ => none
  | _ + 1, [] => none
  | fuel + 1, ch :: rest =>
    if ch = '"' then some ([], rest)
    else if ch = '\\' then
      match rest with
      | [] => none
      | e :: rest2 =>
        let simpleEsc : Option Char :=
          if e = '"' then some '"'
          else if e = '\\' then some '\\'
          else if e = '/' then some '/'
          else if e = 'b' then some '\x08'
          else if e = 'f' then some '\x0c'
          else if e = 'n' then some '\n'
          else if e = 'r' then some '\r'
          else if e = 't' then some '\t'
          else none
        match simpleEsc with
        | some c =>
          match parseStringBody fuel rest2 with
          | some (s, r) => some (c :: s, r)
          | none => none
        | none =>
          if e = 'u' then
            match rest2 with
            | h1 :: h2 :: h3 :: h4 :: rest3 =>
              match hexVal h1, hexVal h2, hexVal h3, hexVal h4 with
              | some a, some b, some c, some d =>
                let code := ((a * 16 + b) * 16 + c) * 16 + d
                if code < 0xd800 ∨ (0xdfff < code ∧ code < 0x110000) then
                  match parseStringBody fuel rest3 with
                  | some (s, r) =>
                    some (Char.ofNat code :: s, r)
                  | none => none
                else none
              | _, _, _, _ => none
            | _ => none
          else none
    else if ch.toNat < 0x20 then none
    else
      match parseStringBody fuel rest with
      | some (s, r) => some (ch :: s, r)
      | none => none

def digitsVal (l : List Char) : Nat :=
  l.foldl (fun acc ch => acc * 10 + (ch.toNat - '0'.toNat)) 0

/-- A JSON number token: strict grammar of `json.loads` (no leading zeros,
no leading plus).  Integer tokens decode to `PyVal.int`; tokens with a
fraction or exponent keep their lexeme as `PyVal.float`. -/
def parseNumber (l : List Char) : Option (PyVal × List Char) :=
  let (sign, l1) := match l with
    | '-' :: r => (true, r)
    | _ => (false, l)
  let (intDigits, l2) := l1.span Char.isDigit
  match intDigits with
  | [] => none
  | d0 :: ds =>
    if d0 = '0' ∧ ds ≠ [] then none
    else
      let (fracPart, l3) :=
        match l2 with
        | '.' :: r =>
          let (fd, r2) := r.span Char.isDigit
          if fd = [] then (none, l2) else (some fd, r2)
        | _ => (none, l2)
      match fracPart, l3 with
      | none, _ =>
        match l2 with
        | '.' :: _ => none
        | _ =>
          let (expPart, l4) := match l2 with
            | e :: r =>
              if e = 'e' ∨ e = 'E' then
                let (s, r2) := match r with
                  | '+' :: r3 => (['+'], r3)
                  | '-' :: r3 => (['-'], r3)
                  | _ => (([] : List Char), r)
                let (ed, r4) := r2.span Char.isDigit
                if ed = [] then (none, l2) else (some (e :: s ++ ed), r4)
              else (none, l2)
            | _ => (none, l2)
          match expPart with
          | none =>
            let n : Int := Int.ofNat (digitsVal intDigits)
            some (.int (if sign then -n else n), l2)
          | some ex =>
            let lex := (if sign then ['-'] else []) ++ intDigits ++ ex
            some (.float ⟨lex⟩, l4)
      | some fd, _ =>
        let (expPart, l4) := match l3 with
          | e :: r =>
            if e = 'e' ∨ e = 'E' then
              let (s, r2) := match r with
                | '+' :: r3 => (['+'], r3)
                | '-' :: r3 => (['-'], r3)
                | _ => (([] : List Char), r)
              let (ed, r4) := r2.span Char.isDigit
              if ed = [] then (none, l3) else (some (e :: s ++ ed), r4)
            else (none, l3)
          | _ => (none, l3)
        let lex := (if sign then ['-'] else []) ++ intDigits ++ '.' :: fd ++
          (expPart.getD [])
        some (.float ⟨lex⟩, l4)

mutual

/-- Model of the recursive descent of Python's `json.loads` on a remaining
input, with explicit fuel (any fuel larger than the input length is enough,
and `json_loads` below always supplies one). -/
def parseValue : Nat → List Char → Option (PyVal × List Char)
  | 0, _ => none
  | fuel + 1, input =>
    match skipWs input with
    | [] => none
    | ch :: rest =>
      if ch = '"' then
        match parseStringBody (fuel + 1) rest with
        | some (s, r) => some (.str ⟨s⟩, r)
        | none => none
      else if ch = '[' then
        match skipWs rest with
        | ']' :: r => some (.list [], r)
        | other => parseArrayItems fuel other []
      else if ch = '{' then
        match skipWs rest with
        | '}' :: r => some (.dict [], r)
        | other => parseObjectItems fuel other []
      else if ch = 't' then
        match rest with
        | 'r' :: 'u' :: 'e' :: r => some (.bool true, r)
        | _ => none
      else if ch = 'f' then
        match rest with
        | 'a' :: 'l' :: 's' :: 'e' :: r => some (.bool false, r)
        | _ => none
      else if ch = 'n' then
        match rest with
        | 'u' :: 'l' :: 'l' :: r => some (.null, r)
        | _ => none
      else parseNumber (ch :: rest)

/-- Items of a JSON array after the opening bracket (nonempty case),
accumulating parsed items in order. -/
def parseArrayItems : Nat → List Char → List PyVal → Option (PyVal × List Char)
  | 0, _, _ => none
  | fuel + 1, input, acc =>
    match parseValue fuel input with
    | none => none
    | some (v, rest) =>
      match skipWs rest with
      | ',' :: r => parseArrayItems fuel r (acc ++ [v])
      | ']' :: r => some (.list (acc ++ [v]), r)
      | _ => none

/-- Members of a JSON object after the opening brace (nonempty case).  A
repeated key overwrites the earlier value in place, as in a Python dict. -/
def parseObjectItems : Nat → List Char → List (String × PyVal) →
    Option (PyVal × List Char)
  | 0, _, _ => none
  | fuel + 1, input, acc =>
    match skipWs input with
    | '"' :: rest =>
      match parseStringBody (fuel + 1) rest with
      | none => none
      | some (k, rest2) =>
        match skipWs rest2 with
        | ':' :: rest3 =>
          match parseValue fuel rest3 with
          | none => none
          | some (v, rest4) =>
            let key : String := ⟨k⟩
            let acc2 :=
              if acc.any (fun p => p.1 = key) then
                acc.map (fun p => if p.1 = key then (key, v) else p)
              else acc ++ [(key, v)]
            match skipWs rest4 with
            | ',' :: r => parseObjectItems fuel r acc2
            | '}' :: r => some (.dict acc2, r)
            | _ => none
        | _ => none
    | _ => none

end

/-- Model of Python `json.loads` on a character list: a single JSON value,
optionally surrounded by JSON whitespace; `none` models `JSONDecodeError`. -/
def json_loads (l : List Char) : Option PyVal :=
  match parseValue (l.length + 2) l with
  | some (v, rest) => if (skipWs rest).isEmpty then some v else none
  | none => none

/-! ## The regular expression searches of `safe_extract_json`

`safe_extract_json` runs `re.findall` with `re.DOTALL` over four concrete
patterns.  Each is modelled directly as a scanning function with Python's
leftmost, non-overlapping `findall` semantics.

The bracket patterns are the non-greedy spans matching the first closer
after each opener; the fenced patterns capture the interior between an
opening fence tag and the next triple backtick. -/
/-- One pass of the non-greedy pattern (an opener, a shortest run of
arbitrary characters, a closer).  The state is `none` while scanning for an
opener and `some acc` after one, where `acc` is the span content read so
far.  Emitted matches include the two delimiters, exactly as `re.findall`
returns them for a group-free pattern. -/
def scanOC (o c : Char) : List Char → Option (List Char) → List (List Char)
  | [], _ => []
  | ch :: rest, none =>
    if ch = o then scanOC o c rest (some [])
    else scanOC o c rest none
  | ch :: rest, some acc =>
    if ch = c then (o :: acc ++ [c]) :: scanOC o c rest none
    else scanOC o c rest (some (acc ++ [ch]))

/-- All matches of a non-greedy delimited-span pattern, in order. -/
def findSpans (o c : Char) (l : List Char) : List (List Char) :=
  scanOC o c l none

/-- Whether `pat` is an initial segment of `l`. -/
def startsWithL : List Char → List Char → Bool
  | [], _ => true
  | _ :: _, [] => false
  | p :: ps, x :: xs => p = x && startsWithL ps xs

/-- First occurrence of `pat` as a contiguous run: the part before it and
the part after it. -/
def splitOnceSubstr (pat : List Char) : List Char → Option (List Char × List Char)
  | [] => if pat.isEmpty then some ([], []) else none
  | ch :: rest =>
    if startsWithL pat (ch :: rest) then some ([], (ch :: rest).drop pat.length)
    else
      match splitOnceSubstr pat rest with
      | none => none
      | some (pre, suf) => some (ch :: pre, suf)

def fenceClose : List Char := "```".data

/-- Successive captures of a fenced-block pattern: the interior between an
opening tag occurrence and the next triple backtick, with scanning resumed
after the closing fence.  The regular expressions trim surrounding
whitespace from the capture; the caller strips the capture before decoding,
which subsumes that trimming. -/
def findFencedAux (openTag : List Char) : Nat → List Char → List (List Char)
  | 0, _ => []
  | fuel + 1, l =>
    match splitOnceSubstr openTag l with
    | none => []
    | some (_, afterOpen) =>
      match splitOnceSubstr fenceClose afterOpen with
      | none => []
      | some (inner, rest) => inner :: findFencedAux openTag fuel rest

def findFenced (openTag : List Char) (l : List Char) : List (List Char) :=
  findFencedAux openTag (l.length + 1) l

def jsonFenceTag : List Char := "```json".data

/-- The four pattern searches of `safe_extract_json`, in source order, each
tagged with whether its match is stripped before `json.loads` (the fenced
patterns are). -/
def patternMatches (text : List Char) : List (Bool × List (List Char)) :=
  [ (false, findSpans '[' ']' text),
    (true, findFenced jsonFenceTag text),
    (true, findFenced fenceClose text),
    (false, findSpans '{' '}' text) ]

/-- One decode attempt on one match: the fenced captures are stripped first;
a decoded object is wrapped in a one-element list, a decoded list is kept,
and anything else (decode error or a non-object, non-list value) yields
`none`, sending the loop to the next match. -/
def tryDecode (isFenced : Bool) (m : List Char) : Option (List PyVal) :=
  match json_loads (if isFenced then pyStrip m else m) with
  | some (.dict d) => some [.dict d]
  | some (.list xs) => some xs
  | _ => none

/-- First result of `f` over a list, skipping elements on which `f` fails:
the shape of the double loop in `safe_extract_json`. -/
def firstSome {α β : Type _} (f : α → Option β) : List α → Option β
  | [] => none
  | a :: as =>
    match f a with
    | some b => some b
    | none => firstSome f as

/-- Model of `safe_extract_json`: try every match of every pattern in order
and return the first successfully decoded record list, or `none` after all
patterns are exhausted. -/
def safe_extract_json (text : List Char) : Option (List PyVal) :=
  firstSome (fun pm => firstSome (tryDecode pm.1) pm.2) (patternMatches text)

/-- One pass of the greedy variant of the delimited-span pattern, as the
specification describes it: from an opener to the last closer after it.
Defined for comparison with the source behaviour; it is not what the code
does. -/
def scanOCGreedyAux (o c : Char) : Nat → List Char → List (List Char)
  | 0, _ => []
  | fuel + 1, l =>
    match splitOnceSubstr [o] l with
    | none => []
    | some (_, afterOpen) =>
      match splitOnceSubstr [c] afterOpen.reverse with
      | none => []
      | some (revTail, revInner) =>
        (o :: revInner.reverse ++ [c]) :: scanOCGreedyAux o c fuel revTail.reverse

/-- All matches of the greedy delimited-span pattern, in order. -/
def findSpansGreedy (o c : Char) (l : List Char) : List (List Char) :=
  scanOCGreedyAux o c (l.length + 1) l

/-- The specification's variant of `safe_extract_json`, following its words:
the bracketed array and object spans are the largest, matched greedily.
The fenced patterns are unchanged.  Defined only to be compared with the
source definition. -/
def safe_extract_json_specGreedy (text : List Char) : Option (List PyVal) :=
  firstSome (fun pm => firstSome (tryDecode pm.1) pm.2)
    [ (false, findSpansGreedy '[' ']' text),
      (true, findFenced jsonFenceTag text),
      (true, findFenced fenceClose text),
      (false, findSpansGreedy '{' '}' text) ]

/-! ## Configuration data of `gemini-pdf_genai.py` -/
/-- The fixed, ordered extraction schema (`EXTRACTION_FIELDS`). -/
def EXTRACTION_FIELDS : List String :=
  [ "성명", "생년월일", "안내유형", "기장의무", "추계시 적용경비율",
    "소득종류", "이자", "배당", "근로-단일", "근로-복수",
    "연금", "기타", "종교인 기타소득유무", "중간예납세액", "원천징수세액",
    "국민연금보험료", "개인연금저축", "소기업소상공인공제부금 (노란우산공제)",
    "퇴직연금세액공제", "연금계좌세액공제", "사업자 등록번호", "상호", "수입금액 구분코드",
    "업종 코드", "사업 형태", "기장 의무", "경비율",
    "수입금액", "일반", "자가", "일반(기본)", "자가(초과)" ]

/-- The subset of fields designated as currency-bearing (`currency_fields`). -/
def currency_fields : List String :=
  [ "중간예납세액", "원천징수세액", "국민연금보험료", "개인연금저축",
    "소기업소상공인공제부금 (노란우산공제)", "퇴직연금세액공제", "연금계좌세액공제", "수입금액" ]

/-! ## `clean_currency` -/
/-- String branch of `clean_currency`: the sentinel inputs map to the zero
string, otherwise every non-digit character is removed (Python matches any
Unicode decimal digit; every input in this development is ASCII, where the
two notions of digit coincide), with the zero string as fallback when
nothing remains. -/
def clean_currency_str (value : String) : String :=
  if pyStrip value.data = [] ∨ pyStrip value.data = "없음".data ∨
      pyStrip value.data = "N/A".data then "0"
  else if value.data.filter Char.isDigit = [] then "0"
  else ⟨value.data.filter Char.isDigit⟩

/-- Model of `clean_currency`: any non-string input yields the zero string. -/
def clean_currency : PyVal → String
  | .str s => clean_currency_str s
  | _ => "0"

/-! ## Python dict primitives used by the pipeline -/
/-- Membership test of the Python `in` operator on a dict. -/
def dictHas (d : List (String × PyVal)) (k : String) : Bool :=
  d.any (fun p => p.1 = k)

/-- Lookup of a present key (first, and in our dicts only, binding). -/
def dictGet (d : List (String × PyVal)) (k : String) : Option PyVal :=
  (d.find? (fun p => p.1 = k)).map (fun p => p.2)

/-- Python `dict.get(k, default)`. -/
def dictGetD (d : List (String × PyVal)) (k : String) (dflt : PyVal) : PyVal :=
  (dictGet d k).getD dflt

/-- Python `d[k] = v`: overwrite in place if the key exists, else append. -/
def dictSet (d : List (String × PyVal)) (k : String) (v : PyVal) :
    List (String × PyVal) :=
  if dictHas d k then d.map (fun p => if p.1 = k then (k, v) else p)
  else d ++ [(k, v)]

/-! ## `validate_and_fix_data` -/
/-- The field loop of `validate_and_fix_data` on one record: each schema
field absent from the record is inserted with the sentinel. -/
def fillFields (fields : List String) (d : List (String × PyVal)) :
    List (String × PyVal) :=
  fields.foldl (fun acc f => if dictHas acc f then acc else acc ++ [(f, .str "N/A")]) d

/-- Model of `validate_and_fix_data`: a non-list input is coerced (a bare
dict to a one-element list, anything else to an empty list); list elements
that are not dicts are skipped; retained records get every schema field. -/
def validate_and_fix_data : PyVal → List PyVal
  | .list items =>
    items.filterMap (fun item =>
      match item with
      | .dict d => some (.dict (fillFields EXTRACTION_FIELDS d))
      | _ => none)
  | .dict d => [.dict d]
  | _ => []

/-! ## Python `str()` of a value, as used when building sink rows -/
def squote : String := String.singleton (Char.ofNat 39)

mutual

/-- Structural size of a value, an upper bound of its nesting depth. -/
def pySize : PyVal → Nat
  | .str _ => 1
  | .int _ => 1
  | .float _ => 1
  | .bool _ => 1
  | .null => 1
  | .list xs => 1 + pySizeList xs
  | .dict es => 1 + pySizeEntries es

def pySizeList : List PyVal → Nat
  | [] => 0
  | v :: vs => pySize v + pySizeList vs

def pySizeEntries : List (String × PyVal) → Nat
  | [] => 0
  | p :: es => pySize p.2 + pySizeEntries es

end

/-- Container representation used by Python `str` under `repr` rules, with
explicit fuel (any fuel at least the nesting depth agrees; `pyStr` supplies
`pySize`, which always suffices).  String escaping and float reformatting
inside containers are kept as the identity: no claim depends on them and no
container value occurs in the concrete runs below. -/
def pyReprF : Nat → PyVal → String
  | _, .str s => squote ++ s ++ squote
  | _, .int n => toString n
  | _, .float lex => lex
  | _, .bool true => "True"
  | _, .bool false => "False"
  | _, .null => "None"
  | 0, _ => ""
  | fuel + 1, .list xs => "[" ++ String.intercalate ", " (xs.map (pyReprF fuel)) ++ "]"
  | fuel + 1, .dict es =>
    "\x7b" ++ String.intercalate ", "
      (es.map (fun p => squote ++ p.1 ++ squote ++ ": " ++ pyReprF fuel p.2)) ++ "\x7d"

/-- Python `str(value)`: the identity on strings, `repr`-style elsewhere. -/
def pyStr : PyVal → String
  | .str s => s
  | v => pyReprF (pySize v) v

/-! ## `extract_data_with_gemini`: the bounded retry loop

The external world of one attempt is a behaviour: the upload raises, the
model call raises, or a response text is produced; the deletion call may
itself raise (it is caught and only affects the held handle).  The loop is
a fold over the three attempt behaviours carrying the `uploaded_file`
variable and the count of `genai.delete_file` invocations. -/
inductive AttemptOutcome where
  | uploadRaise (msg : String)
  | genRaise (msg : String)
  | response (text : String)

structure AttemptSpec where
  outcome : AttemptOutcome
  deleteOk : Bool

/-- Terminal outcome of the retry loop: the success data, a re-raised
upload/model exception, or the `ValueError` raised after the last parse
failure (carrying the last raw response text). -/
inductive ExtractResult where
  | success (data : List PyVal)
  | raised (msg : String)
  | parseFailed (lastText : String)

/-- Message of the terminal `ValueError` after the last parse failure. -/
def parseFailMsg (t : String) : String :=
  "모든 시도에서 JSON 추출 실패. 원본 응답:\n" ++ t

/-- The `finally` block of one attempt: if a handle is held, deletion is
invoked (counted), and the handle is dropped exactly when deletion does not
itself raise. -/
def runFinally (uploaded deleteOk : Bool) (count : Nat) : Bool × Nat :=
  if uploaded then (!deleteOk, count + 1) else (false, count)

/-- The retry loop of `extract_data_with_gemini`, one attempt plus the
remaining ones; an empty remainder means the current attempt is the last. -/
def runAttempts (ev : AttemptSpec) (rest : List AttemptSpec)
    (uploaded : Bool) (count : Nat) : ExtractResult × Nat :=
  match ev.outcome with
  | .uploadRaise m =>
    let (u2, c2) := runFinally uploaded ev.deleteOk count
    match rest with
    | [] => (.raised m, c2)
    | e2 :: rest2 => runAttempts e2 rest2 u2 c2
  | .genRaise m =>
    let (u2, c2) := runFinally true ev.deleteOk count
    match rest with
    | [] => (.raised m, c2)
    | e2 :: rest2 => runAttempts e2 rest2 u2 c2
  | .response t =>
    match safe_extract_json t.data with
    | some d =>
      let (_, c2) := runFinally true ev.deleteOk count
      (.success d, c2)
    | none =>
      let (u2, c2) := runFinally true ev.deleteOk count
      match rest with
      | [] => (.parseFailed t, c2)
      | e2 :: rest2 => runAttempts e2 rest2 u2 c2

/-- `extract_data_with_gemini` under three given attempt behaviours
(`max_retries = 3`): the terminal result and the number of release
invocations. -/
def extract_data_with_gemini (a1 a2 a3 : AttemptSpec) : ExtractResult × Nat :=
  runAttempts a1 [a2, a3] false 0

/-! ## Row construction and the batch driver (`main`) -/
/-- Newline and carriage-return characters of a string value are replaced
by spaces before the value reaches a sink cell. -/
def replaceNL (s : String) : String :=
  ⟨s.data.map (fun ch => if ch = '\n' || ch = '\r' then ' ' else ch)⟩

/-- Entries of a validated record (`validate_and_fix_data` returns dicts
only, so the fallback is unreachable in the pipeline). -/
def rowEntries : PyVal → List (String × PyVal)
  | .dict d => d
  | _ => []

/-- One sink cell for one schema field of one record: fetch with the
sentinel default, flatten embedded line breaks of string values, clean
currency-designated fields, and stringify. -/
def buildCell (d : List (String × PyVal)) (field : String) : PyVal :=
  let v0 := dictGetD d field (.str "N/A")
  let v1 := match v0 with
    | .str s => PyVal.str (replaceNL s)
    | v => v
  let v2 := if field ∈ currency_fields then
      PyVal.str (clean_currency (.str (pyStr v1)))
    else v1
  .str (pyStr v2)

/-- One sink row: the document identifier (first row only), the 1-based row
index, then one cell per schema field in schema order. -/
def buildRow (file : String) (i : Nat) (r : PyVal) : List PyVal :=
  .str (if i = 0 then file else "") :: .int (Int.ofNat (i + 1)) ::
    EXTRACTION_FIELDS.map (buildCell (rowEntries r))

/-- All sink rows of one document. -/
def buildRows (file : String) (validated : List PyVal) : List (List PyVal) :=
  validated.enum.map (fun p => buildRow file p.1 p.2)

/-- Mutable state of the batch loop in `main`: the tabular sink, the error
trail, and the two counters. -/
structure BatchState where
  sinkRows : List (List PyVal)
  errorLog : List (String × String)
  totalRowsAdded : Nat
  errorCount : Nat

def initState : BatchState := ⟨[], [], 0, 0⟩

/-- One document of a batch: its file name and the behaviours of its three
extraction attempts. -/
structure DocSpec where
  name : String
  a1 : AttemptSpec
  a2 : AttemptSpec
  a3 : AttemptSpec

/-- The body of the per-document loop of `main`: an escaping exception
appends one error record and bumps the error counter; an extraction with no
valid records appends an error-log entry without bumping the counter; a
successful extraction appends its rows in one batch and adds their count. -/
def processDoc (st : BatchState) (doc : DocSpec) : BatchState :=
  match extract_data_with_gemini doc.a1 doc.a2 doc.a3 with
  | (.raised m, _) =>
    { st with errorLog := st.errorLog ++ [(doc.name, m)],
              errorCount := st.errorCount + 1 }
  | (.parseFailed t, _) =>
    { st with errorLog := st.errorLog ++ [(doc.name, parseFailMsg t)],
              errorCount := st.errorCount + 1 }
  | (.success data, _) =>
    let validated := validate_and_fix_data (.list data)
    if validated.isEmpty then
      { st with errorLog := st.errorLog ++ [(doc.name, "유효한 데이터 없음")] }
    else
      let rows := buildRows doc.name validated
      { st with sinkRows := st.sinkRows ++ rows,
                totalRowsAdded := st.totalRowsAdded + rows.length }

/-- The whole batch loop of `main` over a list of documents. -/
def runBatch (docs : List DocSpec) : BatchState :=
  docs.foldl processDoc initState

/-! ## The Singleton Merge Engine -/
/-- Modelled from the spec: the Singleton Merge Engine has no executable
implementation in the repository — the merge is delegated to the model by
`GEMINI_PROMPT` (step 3: copy every document-level value into each
row-level object).  Following section 4.4 of the specification: one output
record per row-level record, the row overlaid with the singleton fields,
singleton values taking precedence on key collision. -/
def mergeSingletons (S : List (String × PyVal))
    (R : List (List (String × PyVal))) : List (List (String × PyVal)) :=
  R.map (fun row => S.foldl (fun acc p => dictSet acc p.1 p.2) row)

/-- The flattened attempt sequence of `safe_extract_json`: every match of
every pattern, in attempt order, tagged with the fenced flag. -/
def attemptList (text : List Char) : List (Bool × List Char) :=
  (patternMatches text).flatMap (fun pm => pm.2.map (fun m => (pm.1, m)))

/-! ## Matches are contiguous substrings of the response text -/
/-- `m` occurs as a contiguous run inside `l`. -/
def isSubseg (m l : List Char) : Prop := ∃ p s, l = p ++ m ++ s

/-- Scanner-state contribution to the text a match lives in. -/
def scanPre (o : Char) : Option (List Char) → List Char
  | none => []
  | some acc => o :: acc

/-! ## Characterizations of one decode attempt -/
/-- The text actually handed to the decoder for one match. -/
def attemptPayload (fenced : Bool) (m : List Char) : List Char :=
  if fenced then pyStrip m else m

/-- One step of the field loop. -/
def fillStep (acc : List (String × PyVal)) (f : String) :
    List (String × PyVal) :=
  if dictHas acc f then acc else acc ++ [(f, .str "N/A")]

/-- Whether a value is a Python dict. -/
def isDictB : PyVal → Bool
  | .dict _ => true
  | _ => false

/-- The overlay of the singleton fields onto one row-level record. -/
def overlayS (S row : List (String × PyVal)) : List (String × PyVal) :=
  S.foldl (fun acc p => dictSet acc p.1 p.2) row

/-! ## Retry Orchestrator lemmas -/
/-- The attempt fails in one of the retryable ways enumerated by the
specification with the document uploaded: the model call raises, or a
response arrives whose parse fails. -/
def failsRetryably (ev : AttemptSpec) : Prop :=
  (∃ m, ev.outcome = .genRaise m) ∨
  (∃ t, ev.outcome = .response t ∧ safe_extract_json t.data = none)

/-- The attempt produces a response that parses to `d`. -/
def attemptSucceedsWith (ev : AttemptSpec) (d : List PyVal) : Prop :=
  ∃ t, ev.outcome = .response t ∧ safe_extract_json t.data = some d

/-- The attempt produces the response `t`, whose parse fails. -/
def attemptParseFails (ev : AttemptSpec) (t : String) : Prop :=
  ev.outcome = .response t ∧ safe_extract_json t.data = none

/-! ## Batch driver lemmas -/
/-- The error text recorded by the driver for a terminal extraction
failure (`str(e)` of the escaping exception). -/
def extractErrMsg : ExtractResult → Option String
  | .success _ => none
  | .raised m => some m
  | .parseFailed t => some (parseFailMsg t)

/-! ## Contiguous runs of a text, for stating uniqueness of a JSON array -/
/-- Every contiguous run of a character list (with positional duplicates). -/
def contiguousRuns (l : List Char) : List (List Char) :=
  l.tails.flatMap List.inits

/-- Whether a run decodes as a JSON array. -/
def isJsonArrayRun (s : List Char) : Bool :=
  match json_loads s with
  | some (.list _) => true
  | _ => false

/-- The runs of a text that decode as JSON arrays. -/
def jsonArrayRuns (l : List Char) : List (List Char) :=
  (contiguousRuns l).filter isJsonArrayRun

/-- Whether a sink cell is a Python string. -/
def isStrCell : PyVal → Bool
  | .str _ => true
  | _ => false

/-! ## Generic lemmas about the attempt loop shape -/
theorem firstSome_eq_none_iff {α β : Type _} (f : α → Option β) (l : List α) :
    firstSome f l = none ↔ ∀ a ∈ l, f a = none := by
  induction l with
  | nil => simp [firstSome]
  | cons a as ih =>
    simp only [firstSome]
    cases h : f a with
    | some b => simp [h]
    | none => simpa [h] using ih

theorem firstSome_isSome_iff {α β : Type _} (f : α → Option β) (l : List α) :
    (firstSome f l).isSome ↔ ∃ a ∈ l, (f a).isSome := by
  induction l with
  | nil => simp [firstSome]
  | cons a as ih =>
    simp only [firstSome]
    cases h : f a with
    | some b => simp [h]
    | none => simpa [h] using ih

theorem firstSome_map {α β γ : Type _} (g : β → Option γ) (f : α → β)
    (l : List α) :
    firstSome g (l.map f) = firstSome (fun a => g (f a)) l := by
  induction l with
  | nil => rfl
  | cons a as ih => simp only [List.map_cons, firstSome, ih]

theorem firstSome_append {α β : Type _} (f : α → Option β) (l1 l2 : List α) :
    firstSome f (l1 ++ l2) =
      match firstSome f l1 with
      | some b => some b
      | none => firstSome f l2 := by
  induction l1 with
  | nil => simp [firstSome]
  | cons a as ih =>
    simp only [List.cons_append, firstSome]
    cases h : f a with
    | some b => rfl
    | none => simp only [List.append_eq, ih]

theorem firstSome_flatPairs (L : List (Bool × List (List Char))) :
    firstSome (fun pm => firstSome (tryDecode pm.1) pm.2) L =
      firstSome (fun a => tryDecode a.1 a.2)
        (L.flatMap (fun pm => pm.2.map (fun m => (pm.1, m)))) := by
  induction L with
  | nil => rfl
  | cons p L ih =>
    simp only [List.flatMap_cons, firstSome_append, firstSome_map, firstSome]
    cases h : firstSome (tryDecode p.1) p.2 with
    | some b => simp [← h]
    | none =>
      have : firstSome (fun m => tryDecode p.1 m) p.2 = none := h
      simp [this, ih]

theorem safe_extract_json_eq_flat (text : List Char) :
    safe_extract_json text =
      firstSome (fun a => tryDecode a.1 a.2) (attemptList text) := by
  simpa [safe_extract_json, attemptList] using
    firstSome_flatPairs (patternMatches text)

theorem isSubseg_cons (ch : Char) {m l : List Char} (h : isSubseg m l) :
    isSubseg m (ch :: l) := by
  obtain ⟨p, s, rfl⟩ := h
  exact ⟨ch :: p, s, rfl⟩

theorem isSubseg_trans {a b c : List Char} (h1 : isSubseg a b)
    (h2 : isSubseg b c) : isSubseg a c := by
  obtain ⟨p1, s1, rfl⟩ := h1
  obtain ⟨p2, s2, rfl⟩ := h2
  exact ⟨p2 ++ p1, s1 ++ s2, by simp⟩

theorem exists_dropWhile_pre (p : Char → Bool) (l : List Char) :
    ∃ t, l = t ++ l.dropWhile p := by
  induction l with
  | nil => exact ⟨[], rfl⟩
  | cons a l ih =>
    by_cases h : p a
    · obtain ⟨t, ht⟩ := ih
      exact ⟨a :: t, by simpa [List.dropWhile_cons, h] using congrArg (a :: ·) ht⟩
    · exact ⟨[], by simp [List.dropWhile_cons, h]⟩

theorem pyStrip_isSubseg (l : List Char) : isSubseg (pyStrip l) l := by
  obtain ⟨t1, h1⟩ := exists_dropWhile_pre pyIsSpaceChar l
  obtain ⟨t2, h2⟩ :=
    exists_dropWhile_pre pyIsSpaceChar (l.dropWhile pyIsSpaceChar).reverse
  refine ⟨t1, t2.reverse, ?_⟩
  conv_lhs => rw [h1]
  have : l.dropWhile pyIsSpaceChar = pyStrip l ++ t2.reverse := by
    have := congrArg List.reverse h2
    simpa [pyStrip, List.reverse_append] using this
  rw [this, List.append_assoc]

theorem startsWithL_eq {p l : List Char} (h : startsWithL p l = true) :
    l = p ++ l.drop p.length := by
  induction p generalizing l with
  | nil => simp
  | cons a ps ih =>
    cases l with
    | nil => simp [startsWithL] at h
    | cons b l =>
      simp only [startsWithL, Bool.and_eq_true, decide_eq_true_eq] at h
      obtain ⟨rfl, h2⟩ := h
      simpa [List.drop] using congrArg (a :: ·) (ih h2)

theorem splitOnceSubstr_eq {pat l a b : List Char}
    (h : splitOnceSubstr pat l = some (a, b)) : l = a ++ pat ++ b := by
  induction l generalizing a b with
  | nil =>
    by_cases hp : pat.isEmpty
    · simp only [splitOnceSubstr, hp, if_true, Option.some.injEq, Prod.mk.injEq] at h
      obtain ⟨rfl, rfl⟩ := h
      simpa using (List.isEmpty_iff.mp hp).symm
    · simp [splitOnceSubstr, hp] at h
  | cons ch rest ih =>
    by_cases hs : startsWithL pat (ch :: rest) = true
    · simp only [splitOnceSubstr, hs, if_true, Option.some.injEq, Prod.mk.injEq] at h
      obtain ⟨rfl, rfl⟩ := h
      simpa using startsWithL_eq hs
    · simp only [splitOnceSubstr, hs, if_false, Bool.false_eq_true] at h
      cases hr : splitOnceSubstr pat rest with
      | none => rw [hr] at h; exact absurd h (by simp)
      | some pr =>
        rw [hr] at h
        obtain ⟨pre, suf⟩ := pr
        simp only [Option.some.injEq, Prod.mk.injEq] at h
        obtain ⟨rfl, rfl⟩ := h
        simpa using congrArg (ch :: ·) (ih hr)

theorem scanOC_mem_subseg (o c : Char) (l : List Char) :
    ∀ st, ∀ m ∈ scanOC o c l st, isSubseg m (scanPre o st ++ l) := by
  induction l with
  | nil => intro st m hm; simp [scanOC] at hm
  | cons ch rest ih =>
    intro st m hm
    cases st with
    | none =>
      by_cases h : ch = o
      · subst h
        simp only [scanOC, if_pos rfl] at hm
        have := ih (some []) m hm
        simpa [scanPre] using this
      · simp only [scanOC, if_neg h] at hm
        exact isSubseg_cons ch (by simpa [scanPre] using ih none m hm)
    | some acc =>
      by_cases h : ch = c
      · subst h
        simp only [scanOC, if_pos rfl] at hm
        rcases hm with _ | ⟨_, hm⟩
        · exact ⟨[], rest, by simp [scanPre]⟩
        · have := ih none m hm
          simp only [scanPre, List.nil_append] at this
          obtain ⟨p, s, rfl⟩ := this
          exact ⟨(o :: acc ++ [ch]) ++ p, s, by simp [scanPre]⟩
      · simp only [scanOC, if_neg h] at hm
        have := ih (some (acc ++ [ch])) m hm
        simp only [scanPre] at this ⊢
        obtain ⟨p, s, hps⟩ := this
        refine ⟨p, s, ?_⟩
        simpa using hps

theorem findSpans_mem_subseg (o c : Char) (l : List Char) :
    ∀ m ∈ findSpans o c l, isSubseg m l := by
  intro m hm
  simpa [scanPre] using scanOC_mem_subseg o c l none m hm

theorem findFencedAux_mem_subseg (tag : List Char) (fuel : Nat) :
    ∀ l, ∀ m ∈ findFencedAux tag fuel l, isSubseg m l := by
  induction fuel with
  | zero => intro l m hm; simp [findFencedAux] at hm
  | succ fuel ih =>
    intro l m hm
    simp only [findFencedAux] at hm
    split at hm
    · simp at hm
    next pre1 afterOpen h1 =>
      split at hm
      · simp at hm
      next inner rest h2 =>
        have e1 := splitOnceSubstr_eq h1
        have e2 := splitOnceSubstr_eq h2
        rcases hm with _ | ⟨_, hm⟩
        · exact ⟨pre1 ++ tag, fenceClose ++ rest, by rw [e1, e2]; simp⟩
        · have := ih rest m hm
          obtain ⟨p, s, rfl⟩ := this
          exact ⟨pre1 ++ tag ++ inner ++ fenceClose ++ p, s, by rw [e1, e2]; simp⟩

theorem findFenced_mem_subseg (tag : List Char) (l : List Char) :
    ∀ m ∈ findFenced tag l, isSubseg m l :=
  findFencedAux_mem_subseg tag (l.length + 1) l

/-! ## The first match of the non-greedy array pattern -/
theorem scanOC_skip (o c : Char) (pre l : List Char) (hpre : o ∉ pre) :
    scanOC o c (pre ++ l) none = scanOC o c l none := by
  induction pre with
  | nil => rfl
  | cons a pre ih =>
    have ha : ¬(a = o) := fun h => hpre (by simp [h.symm])
    simp only [List.cons_append, scanOC, if_neg ha]
    exact ih (fun ho => hpre (List.mem_cons_of_mem a ho))

theorem scanOC_emit (o c : Char) :
    ∀ (body : List Char), c ∉ body → ∀ (suf acc : List Char),
      scanOC o c (body ++ c :: suf) (some acc) =
        (o :: (acc ++ body) ++ [c]) :: scanOC o c suf none := by
  intro body
  induction body with
  | nil => intro _ suf acc; simp [scanOC]
  | cons b body ih =>
    intro hbody suf acc
    have hb : ¬(b = c) := fun h => hbody (by simp [h.symm])
    simp only [List.cons_append, scanOC, if_neg hb, List.append_eq]
    rw [ih (fun hc => hbody (List.mem_cons_of_mem b hc)) suf (acc ++ [b])]
    simp

theorem findSpans_first (o c : Char) (pre body suf : List Char)
    (hpre : o ∉ pre) (hbody : c ∉ body) :
    findSpans o c (pre ++ (o :: body ++ [c]) ++ suf) =
      (o :: body ++ [c]) :: findSpans o c suf := by
  unfold findSpans
  rw [List.append_assoc, scanOC_skip o c pre _ hpre]
  have h2 : (o :: body ++ [c]) ++ suf = o :: (body ++ c :: suf) := by simp
  rw [h2]
  simp only [scanOC, if_pos rfl]
  rw [scanOC_emit o c body hbody suf []]
  simp

theorem tryDecode_isSome_iff (fenced : Bool) (m : List Char) :
    (tryDecode fenced m).isSome ↔
      (∃ d, json_loads (attemptPayload fenced m) = some (.dict d)) ∨
      (∃ xs, json_loads (attemptPayload fenced m) = some (.list xs)) := by
  unfold tryDecode attemptPayload
  cases h : json_loads (if fenced then pyStrip m else m) with
  | none => simp
  | some v => cases v <;> simp

theorem tryDecode_none_of_loads_none (fenced : Bool) (m : List Char)
    (h : json_loads (attemptPayload fenced m) = none) :
    tryDecode fenced m = none := by
  unfold attemptPayload at h
  unfold tryDecode
  rw [h]

theorem tryDecode_dict (fenced : Bool) (m : List Char)
    (d : List (String × PyVal))
    (h : json_loads (attemptPayload fenced m) = some (.dict d)) :
    tryDecode fenced m = some [.dict d] := by
  unfold attemptPayload at h
  unfold tryDecode
  rw [h]

theorem tryDecode_list (fenced : Bool) (m : List Char) (xs : List PyVal)
    (h : json_loads (attemptPayload fenced m) = some (.list xs)) :
    tryDecode fenced m = some xs := by
  unfold attemptPayload at h
  unfold tryDecode
  rw [h]

theorem tryDecode_scalar (fenced : Bool) (m : List Char) (v : PyVal)
    (h : json_loads (attemptPayload fenced m) = some v)
    (hd : ∀ d, v ≠ .dict d) (hl : ∀ xs, v ≠ .list xs) :
    tryDecode fenced m = none := by
  unfold attemptPayload at h
  unfold tryDecode
  rw [h]
  cases v with
  | dict d => exact absurd rfl (hd d)
  | list xs => exact absurd rfl (hl xs)
  | str s => rfl
  | int n => rfl
  | float lex => rfl
  | bool b => rfl
  | null => rfl

/-! ## Main behaviour lemmas of the Response Parser -/
theorem safe_extract_json_clean_array (pre body suf : List Char)
    (l : List PyVal) (hpre : '[' ∉ pre) (hbody : ']' ∉ body)
    (hparse : json_loads ('[' :: body ++ [']']) = some (.list l)) :
    safe_extract_json (pre ++ ('[' :: body ++ [']']) ++ suf) = some l := by
  have hspans := findSpans_first '[' ']' pre body suf hpre hbody
  have hdec : tryDecode false ('[' :: body ++ [']']) = some l :=
    tryDecode_list false _ l (by simpa [attemptPayload] using hparse)
  unfold safe_extract_json patternMatches
  simp only [firstSome, hspans, hdec]

theorem safe_extract_json_none_of_no_json (text : List Char)
    (h : ∀ p m s, text = p ++ m ++ s → json_loads m = none) :
    safe_extract_json text = none := by
  unfold safe_extract_json
  rw [firstSome_eq_none_iff]
  intro pm hpm
  rw [firstSome_eq_none_iff]
  intro m hm
  have hsub : isSubseg (attemptPayload pm.1 m) text := by
    simp only [patternMatches, List.mem_cons, List.mem_singleton] at hpm
    rcases hpm with rfl | rfl | rfl | rfl | h0
    · simpa [attemptPayload] using findSpans_mem_subseg '[' ']' text m hm
    · exact isSubseg_trans (by simpa [attemptPayload] using pyStrip_isSubseg m)
        (findFenced_mem_subseg jsonFenceTag text m hm)
    · exact isSubseg_trans (by simpa [attemptPayload] using pyStrip_isSubseg m)
        (findFenced_mem_subseg fenceClose text m hm)
    · simpa [attemptPayload] using findSpans_mem_subseg '{' '}' text m hm
    · simp at h0
  obtain ⟨p, s, he⟩ := hsub
  exact tryDecode_none_of_loads_none pm.1 m (h p _ s he)

theorem safe_extract_json_isSome_iff (text : List Char) :
    (safe_extract_json text).isSome ↔
      ∃ pm ∈ patternMatches text, ∃ m ∈ pm.2,
        (∃ d, json_loads (attemptPayload pm.1 m) = some (.dict d)) ∨
        (∃ xs, json_loads (attemptPayload pm.1 m) = some (.list xs)) := by
  unfold safe_extract_json
  simp only [firstSome_isSome_iff, tryDecode_isSome_iff]

/-! ## Value Cleaner lemmas -/
theorem dropWhile_eq_self_of_none (p : Char → Bool) (l : List Char)
    (h : ∀ c ∈ l, p c = false) : l.dropWhile p = l := by
  cases l with
  | nil => rfl
  | cons a l => simp [List.dropWhile_cons, h a (List.mem_cons_self a l)]

theorem digit_not_space {ch : Char} (h : ch.isDigit = true) :
    pyIsSpaceChar ch = false := by
  by_contra h0
  have h1 : pyIsSpaceChar ch = true := by
    cases hb : pyIsSpaceChar ch
    · exact absurd hb h0
    · rfl
  simp only [pyIsSpaceChar, Bool.or_eq_true, decide_eq_true_eq] at h1
  rcases h1 with ((((rfl | rfl) | rfl) | rfl) | rfl) | rfl <;>
    simp [Char.isDigit] at h

theorem pyStrip_of_all_digits (l : List Char)
    (h : ∀ c ∈ l, c.isDigit = true) : pyStrip l = l := by
  have h1 : l.dropWhile pyIsSpaceChar = l :=
    dropWhile_eq_self_of_none _ _ (fun c hc => digit_not_space (h c hc))
  have h2 : l.reverse.dropWhile pyIsSpaceChar = l.reverse :=
    dropWhile_eq_self_of_none _ _
      (fun c hc => digit_not_space (h c (List.mem_reverse.mp hc)))
  simp [pyStrip, h1, h2]

theorem clean_currency_str_digits (s : String) :
    (clean_currency_str s).data ≠ [] ∧
    ∀ c ∈ (clean_currency_str s).data, c.isDigit = true := by
  unfold clean_currency_str
  split
  · exact ⟨by decide, by decide⟩
  · split
    · exact ⟨by decide, by decide⟩
    next hne =>
      refine ⟨hne, ?_⟩
      intro c hc
      exact (List.mem_filter.mp hc).2

theorem clean_currency_of_digits (r : String) (hne : r.data ≠ [])
    (hd : ∀ c ∈ r.data, c.isDigit = true) : clean_currency_str r = r := by
  unfold clean_currency_str
  have hstrip : pyStrip r.data = r.data := pyStrip_of_all_digits _ hd
  have hsent : ¬(pyStrip r.data = [] ∨ pyStrip r.data = "없음".data ∨
      pyStrip r.data = "N/A".data) := by
    rw [hstrip]
    push_neg
    refine ⟨hne, ?_, ?_⟩
    · intro he
      have : ('없' : Char).isDigit = true := hd '없' (by rw [he]; decide)
      simp at this
    · intro he
      have : ('N' : Char).isDigit = true := hd 'N' (by rw [he]; decide)
      simp at this
  rw [if_neg hsent]
  have hf : r.data.filter Char.isDigit = r.data := List.filter_eq_self.mpr hd
  rw [hf, if_neg hne]

theorem clean_currency_str_idem (s : String) :
    clean_currency_str (clean_currency_str s) = clean_currency_str s :=
  clean_currency_of_digits _ (clean_currency_str_digits s).1
    (clean_currency_str_digits s).2

/-! ## Schema Normalizer lemmas -/
theorem dictGet_append_not_has (d : List (String × PyVal)) (k : String)
    (v : PyVal) (h : dictHas d k = false) :
    dictGet (d ++ [(k, v)]) k = some v := by
  induction d with
  | nil => simp [dictGet, List.find?]
  | cons p d ih =>
    simp only [dictHas, List.any_cons, Bool.or_eq_false_iff,
      decide_eq_false_iff_not] at h
    simp only [List.cons_append, dictGet, List.find?]
    rw [decide_eq_false h.1]
    exact ih (by simp [dictHas, h.2])

theorem dictGet_append_has (d : List (String × PyVal)) (k : String)
    (h : dictHas d k = true) (rest : List (String × PyVal)) :
    dictGet (d ++ rest) k = dictGet d k := by
  induction d with
  | nil => simp [dictHas] at h
  | cons p d ih =>
    by_cases hp : p.1 = k
    · simp [dictGet, List.find?, hp]
    · simp only [dictHas, List.any_cons, Bool.or_eq_true,
        decide_eq_true_eq] at h
      rcases h with h | h
      · exact absurd h hp
      · simp only [List.cons_append, dictGet, List.find?]
        rw [decide_eq_false hp]
        exact ih h

theorem dictHas_append_single (d : List (String × PyVal)) (g k : String)
    (w : PyVal) :
    dictHas (d ++ [(g, w)]) k = (dictHas d k || decide (g = k)) := by
  simp [dictHas, List.any_append]

theorem fillFields_eq_foldl (fields : List String)
    (d : List (String × PyVal)) :
    fillFields fields d = fields.foldl fillStep d := rfl

theorem fillStep_has_mono (acc : List (String × PyVal)) (f k : String)
    (h : dictHas acc k = true) : dictHas (fillStep acc f) k = true := by
  unfold fillStep
  split
  · exact h
  · simp [dictHas_append_single, h]

theorem fillStep_get_present (acc : List (String × PyVal)) (f k : String)
    (h : dictHas acc k = true) :
    dictGet (fillStep acc f) k = dictGet acc k := by
  unfold fillStep
  split
  · rfl
  · exact dictGet_append_has acc k h _

theorem fillFields_present (fields : List String) :
    ∀ (d : List (String × PyVal)) (k : String), dictHas d k = true →
      dictHas (fillFields fields d) k = true ∧
      dictGet (fillFields fields d) k = dictGet d k := by
  induction fields with
  | nil => intro d k h; exact ⟨h, rfl⟩
  | cons f fs ih =>
    intro d k h
    rw [fillFields_eq_foldl, List.foldl_cons, ← fillFields_eq_foldl]
    have h2 := fillStep_has_mono d f k h
    refine ⟨(ih _ k h2).1, ?_⟩
    rw [(ih _ k h2).2, fillStep_get_present d f k h]

theorem fillFields_has_of_mem (fields : List String) :
    ∀ (d : List (String × PyVal)) (f : String), f ∈ fields →
      dictHas (fillFields fields d) f = true := by
  induction fields with
  | nil => intro d f h; simp at h
  | cons g fs ih =>
    intro d f h
    rw [fillFields_eq_foldl, List.foldl_cons, ← fillFields_eq_foldl]
    rcases List.mem_cons.mp h with rfl | h
    · have : dictHas (fillStep d f) f = true := by
        unfold fillStep
        split
        next hh => exact hh
        · simp [dictHas_append_single]
      exact (fillFields_present fs _ f this).1
    · exact ih _ f h

theorem fillFields_absent (fields : List String) :
    ∀ (d : List (String × PyVal)) (f : String), f ∈ fields →
      dictHas d f = false →
      dictGet (fillFields fields d) f = some (.str "N/A") := by
  induction fields with
  | nil => intro d f h; simp at h
  | cons g fs ih =>
    intro d f hmem h
    rw [fillFields_eq_foldl, List.foldl_cons, ← fillFields_eq_foldl]
    by_cases hg : f = g
    · subst hg
      have hstep : fillStep d f = d ++ [(f, .str "N/A")] := by
        unfold fillStep
        rw [if_neg (by simp [h])]
      rw [hstep]
      have hhas : dictHas (d ++ [(f, .str "N/A")]) f = true := by
        simp [dictHas_append_single]
      rw [(fillFields_present fs _ f hhas).2]
      exact dictGet_append_not_has d f _ h
    · have hmem2 : f ∈ fs := by
        rcases List.mem_cons.mp hmem with h0 | h0
        · exact absurd h0 hg
        · exact h0
      have hstill : dictHas (fillStep d g) f = false := by
        unfold fillStep
        split
        · exact h
        · rw [dictHas_append_single, h]
          simp only [Bool.false_or, decide_eq_false_iff_not]
          exact fun hgf => hg hgf.symm
      exact ih _ f hmem2 hstill

theorem validate_length (items : List PyVal) :
    (validate_and_fix_data (.list items)).length =
      (items.filter isDictB).length := by
  induction items with
  | nil => rfl
  | cons it items ih =>
    cases it <;>
      simp_all [validate_and_fix_data, List.filterMap_cons, List.filter_cons,
        isDictB]

/-! ## Merge Engine lemmas -/
theorem dictGet_map_overwrite (d : List (String × PyVal)) (k : String)
    (v : PyVal) (h : dictHas d k = true) :
    dictGet (d.map (fun p => if p.1 = k then (k, v) else p)) k = some v := by
  induction d with
  | nil => simp [dictHas] at h
  | cons p d ih =>
    by_cases hp : p.1 = k
    · simp [dictGet, List.find?, hp]
    · simp only [dictHas, List.any_cons, Bool.or_eq_true,
        decide_eq_true_eq] at h
      rcases h with h | h
      · exact absurd h hp
      · simp only [List.map_cons, if_neg hp, dictGet, List.find?]
        rw [decide_eq_false hp]
        exact ih h

theorem dictGet_map_overwrite_other (d : List (String × PyVal))
    (k : String) (v : PyVal) (k' : String) (hne : ¬(k' = k)) :
    dictGet (d.map (fun p => if p.1 = k then (k, v) else p)) k' =
      dictGet d k' := by
  induction d with
  | nil => rfl
  | cons p d ih =>
    by_cases hp : p.1 = k
    · simp only [List.map_cons, if_pos hp, dictGet, List.find?]
      have h1 : ¬((k, v).1 = k') := fun he => hne (he.symm)
      have h2 : ¬(p.1 = k') := by rw [hp]; exact fun he => hne he.symm
      rw [decide_eq_false h1, decide_eq_false h2]
      exact ih
    · simp only [List.map_cons, if_neg hp, dictGet, List.find?]
      cases hd : decide (p.1 = k')
      · exact ih
      · rfl

theorem dictGet_append_single_other (d : List (String × PyVal))
    (k : String) (v : PyVal) (k' : String) (hne : ¬(k' = k)) :
    dictGet (d ++ [(k, v)]) k' = dictGet d k' := by
  induction d with
  | nil =>
    simp only [List.nil_append, dictGet, List.find?]
    rw [decide_eq_false (fun he => hne he.symm)]
  | cons p d ih =>
    simp only [List.cons_append, dictGet, List.find?]
    cases hd : decide (p.1 = k')
    · exact ih
    · rfl

theorem dictGet_dictSet_self (d : List (String × PyVal)) (k : String)
    (v : PyVal) : dictGet (dictSet d k v) k = some v := by
  unfold dictSet
  split
  next h => exact dictGet_map_overwrite d k v h
  next h =>
    refine dictGet_append_not_has d k v ?_
    cases hb : dictHas d k
    · rfl
    · exact absurd hb h

theorem dictGet_dictSet_other (d : List (String × PyVal)) (k : String)
    (v : PyVal) (k' : String) (hne : ¬(k' = k)) :
    dictGet (dictSet d k v) k' = dictGet d k' := by
  unfold dictSet
  split
  · exact dictGet_map_overwrite_other d k v k' hne
  · exact dictGet_append_single_other d k v k' hne

theorem mergeSingletons_eq_map (S : List (String × PyVal))
    (R : List (List (String × PyVal))) :
    mergeSingletons S R = R.map (overlayS S) := rfl

theorem overlayS_get_not_mem (S : List (String × PyVal)) :
    ∀ (row : List (String × PyVal)) (k : String),
      (∀ q ∈ S, ¬(q.1 = k)) →
      dictGet (overlayS S row) k = dictGet row k := by
  induction S with
  | nil => intro row k _; rfl
  | cons p S ih =>
    intro row k h
    rw [overlayS, List.foldl_cons]
    have := ih (dictSet row p.1 p.2) k (fun q hq => h q (List.mem_cons_of_mem p hq))
    rw [overlayS] at this
    rw [this]
    exact dictGet_dictSet_other row p.1 p.2 k
      (fun he => h p (List.mem_cons_self p S) he.symm)

theorem overlayS_get_mem (S : List (String × PyVal))
    (hnd : (S.map Prod.fst).Nodup) :
    ∀ (row : List (String × PyVal)) (q : String × PyVal), q ∈ S →
      dictGet (overlayS S row) q.1 = some q.2 := by
  induction S with
  | nil => intro row q h; simp at h
  | cons p S ih =>
    intro row q hq
    simp only [List.map_cons, List.nodup_cons] at hnd
    rw [overlayS, List.foldl_cons]
    rcases List.mem_cons.mp hq with rfl | hq
    · have hkeys : ∀ r ∈ S, ¬(r.1 = q.1) := by
        intro r hr he
        exact hnd.1 (he ▸ List.mem_map_of_mem Prod.fst hr)
      have := overlayS_get_not_mem S (dictSet row q.1 q.2) q.1 hkeys
      rw [overlayS] at this
      rw [this]
      exact dictGet_dictSet_self row q.1 q.2
    · exact ih hnd.2 (dictSet row p.1 p.2) q hq

theorem runAttempts_fail_step (ev e2 : AttemptSpec) (rest : List AttemptSpec)
    (uploaded : Bool) (count : Nat) (h : failsRetryably ev) :
    runAttempts ev (e2 :: rest) uploaded count =
      runAttempts e2 rest (!ev.deleteOk) (count + 1) := by
  rcases h with ⟨m, ho⟩ | ⟨t, ho, hp⟩
  · conv_lhs => unfold runAttempts
    rw [ho]
    simp [runFinally]
  · conv_lhs => unfold runAttempts
    rw [ho]
    simp [hp, runFinally]

theorem runAttempts_success (ev : AttemptSpec) (rest : List AttemptSpec)
    (uploaded : Bool) (count : Nat) (d : List PyVal)
    (h : attemptSucceedsWith ev d) :
    runAttempts ev rest uploaded count = (.success d, count + 1) := by
  obtain ⟨t, ho, hp⟩ := h
  conv_lhs => unfold runAttempts
  rw [ho]
  simp [hp, runFinally]

theorem runAttempts_last_parsefail (ev : AttemptSpec) (uploaded : Bool)
    (count : Nat) (t : String) (h : attemptParseFails ev t) :
    runAttempts ev [] uploaded count = (.parseFailed t, count + 1) := by
  obtain ⟨ho, hp⟩ := h
  conv_lhs => unfold runAttempts
  rw [ho]
  simp [hp, runFinally]

theorem processDoc_fail (st : BatchState) (doc : DocSpec)
    (r : ExtractResult) (k : Nat) (m : String)
    (h : extract_data_with_gemini doc.a1 doc.a2 doc.a3 = (r, k))
    (hm : extractErrMsg r = some m) :
    processDoc st doc =
      { st with errorLog := st.errorLog ++ [(doc.name, m)],
                errorCount := st.errorCount + 1 } := by
  unfold processDoc
  rw [h]
  cases r with
  | success data => simp [extractErrMsg] at hm
  | raised m2 =>
    simp only [extractErrMsg, Option.some.injEq] at hm
    rw [← hm]
  | parseFailed t =>
    simp only [extractErrMsg, Option.some.injEq] at hm
    rw [← hm]

theorem processDoc_success_rows (st : BatchState) (doc : DocSpec)
    (data : List PyVal) (k : Nat)
    (h : extract_data_with_gemini doc.a1 doc.a2 doc.a3 = (.success data, k))
    (hv : (validate_and_fix_data (.list data)).isEmpty = false) :
    processDoc st doc =
      { st with
          sinkRows := st.sinkRows ++
            buildRows doc.name (validate_and_fix_data (.list data)),
          totalRowsAdded := st.totalRowsAdded +
            (buildRows doc.name (validate_and_fix_data (.list data))).length } := by
  unfold processDoc
  rw [h]
  simp [hv]

theorem processDoc_success_empty (st : BatchState) (doc : DocSpec)
    (data : List PyVal) (k : Nat)
    (h : extract_data_with_gemini doc.a1 doc.a2 doc.a3 = (.success data, k))
    (hv : (validate_and_fix_data (.list data)).isEmpty = true) :
    processDoc st doc =
      { st with errorLog := st.errorLog ++ [(doc.name, "유효한 데이터 없음")] } := by
  unfold processDoc
  rw [h]
  simp [hv]

/-! ## Row construction lemmas -/
theorem buildRows_get (file : String) (validated : List PyVal) (i : Nat) :
    (buildRows file validated)[i]? =
      (validated[i]?).map (fun v => buildRow file i v) := by
  unfold buildRows
  rw [List.getElem?_map, List.getElem?_enum]
  cases validated[i]? <;> rfl

theorem buildRows_length (file : String) (validated : List PyVal) :
    (buildRows file validated).length = validated.length := by
  simp [buildRows]

theorem buildRow_length (file : String) (i : Nat) (r : PyVal) :
    (buildRow file i r).length = EXTRACTION_FIELDS.length + 2 := by
  simp [buildRow]

theorem buildRow_get_zero (file : String) (i : Nat) (r : PyVal) :
    (buildRow file i r)[0]? = some (.str (if i = 0 then file else "")) := rfl

theorem buildRow_get_one (file : String) (i : Nat) (r : PyVal) :
    (buildRow file i r)[1]? = some (.int (Int.ofNat (i + 1))) := rfl

theorem buildRow_get_cell (file : String) (i : Nat) (r : PyVal) (j : Nat) :
    (buildRow file i r)[j + 2]? =
      (EXTRACTION_FIELDS[j]?).map (buildCell (rowEntries r)) := by
  unfold buildRow
  show (PyVal.str (if i = 0 then file else "") ::
      PyVal.int (Int.ofNat (i + 1)) ::
      EXTRACTION_FIELDS.map (buildCell (rowEntries r)))[(j + 1) + 1]? = _
  rw [List.getElem?_cons_succ, List.getElem?_cons_succ, List.getElem?_map]

theorem buildCell_is_str (d : List (String × PyVal)) (field : String) :
    ∃ s, buildCell d field = .str s :=
  ⟨_, rfl⟩

theorem buildCell_currency_digits (d : List (String × PyVal))
    (field : String) (h : field ∈ currency_fields) :
    ∃ s, buildCell d field = .str s ∧ s.data ≠ [] ∧
      ∀ c ∈ s.data, c.isDigit = true := by
  refine ⟨clean_currency_str (pyStr (match dictGetD d field (.str "N/A") with
    | .str s => PyVal.str (replaceNL s)
    | v => v)), ?_, (clean_currency_str_digits _).1,
    (clean_currency_str_digits _).2⟩
  simp only [buildCell, if_pos h]
  rfl

theorem buildCell_sentinel (d : List (String × PyVal)) (field : String)
    (h : dictGet d field = none ∨ dictGet d field = some (.str "N/A")) :
    buildCell d field =
      .str (if field ∈ currency_fields then "0" else "N/A") := by
  have hv0 : dictGetD d field (.str "N/A") = .str "N/A" := by
    rcases h with h | h <;> simp [dictGetD, h]
  by_cases hc : field ∈ currency_fields
  · simp only [buildCell, hv0, if_pos hc]
    rfl
  · simp only [buildCell, hv0, if_neg hc]
    rfl

theorem mem_contiguousRuns_of_split (text p m s : List Char)
    (h : text = p ++ m ++ s) : m ∈ contiguousRuns text := by
  unfold contiguousRuns
  rw [List.mem_flatMap]
  refine ⟨m ++ s, ?_, ?_⟩
  · rw [List.mem_tails]
    exact ⟨p, by rw [h, List.append_assoc]⟩
  · rw [List.mem_inits]
    exact ⟨s, rfl⟩

theorem no_json_in_of_runs (text : List Char)
    (h : ∀ m ∈ contiguousRuns text, (json_loads m).isNone = true) :
    ∀ p m s, text = p ++ m ++ s → json_loads m = none :=
  fun p m s he =>
    Option.isNone_iff_eq_none.mp (h m (mem_contiguousRuns_of_split text p m s he))

theorem firstSome_first_wins {α β : Type _} (f : α → Option β) (l : List α)
    (k : Nat) (a : α) (b : β) (hk : l[k]? = some a) (hb : f a = some b)
    (hprev : ∀ k2 < k, ∀ a2, l[k2]? = some a2 → f a2 = none) :
    firstSome f l = some b := by
  induction l generalizing k with
  | nil => simp at hk
  | cons x xs ih =>
    cases k with
    | zero =>
      simp only [List.getElem?_cons_zero, Option.some.injEq] at hk
      subst hk
      simp [firstSome, hb]
    | succ k =>
      have hx : f x = none :=
        hprev 0 (Nat.succ_pos k) x (by simp)
      simp only [List.getElem?_cons_succ] at hk
      simp only [firstSome, hx]
      exact ih k hk (fun k2 hk2 a2 ha2 =>
        hprev (k2 + 1) (Nat.succ_lt_succ hk2) a2 (by simpa using ha2))

/-! ## Claim theorems -/
/-- C1, counterexample: the response text consisting exactly of the
well-formed JSON array whose single element is the string containing one
closing bracket contains exactly one well-formed JSON array run, yet
`safe_extract_json` returns `none` on it instead of that array's contents:
the non-greedy first span stops at the bracket inside the string literal and
no recovery follows, so the claim as stated is false. -/
theorem safe_extract_json_c1_counterexample :
    jsonArrayRuns "[\"]\"]".data = ["[\"]\"]".data] ∧
    json_loads "[\"]\"]".data = some (.list [.str "]"]) ∧
    safe_extract_json "[\"]\"]".data = none :=
  ⟨rfl, rfl, rfl⟩

/-- C1 (corrected): when the first bracket of the text opens a well-formed
JSON array whose only closing bracket is its final character, the parser
returns that array's contents unchanged, whatever follows; when no
contiguous run of the text is decodable JSON, extraction fails with `none`
rather than partial or garbage data; and in general the parser returns a
record list iff some pattern match decodes as a JSON object or array. -/
theorem safe_extract_json_c1_spec (pre body suf text : List Char)
    (l : List PyVal) :
    (('[' ∉ pre) → (']' ∉ body) →
      json_loads ('[' :: body ++ [']']) = some (.list l) →
      safe_extract_json (pre ++ ('[' :: body ++ [']']) ++ suf) = some l) ∧
    ((∀ p m s, text = p ++ m ++ s → json_loads m = none) →
      safe_extract_json text = none) ∧
    ((safe_extract_json text).isSome ↔
      ∃ pm ∈ patternMatches text, ∃ m ∈ pm.2,
        (∃ d, json_loads (attemptPayload pm.1 m) = some (.dict d)) ∨
        (∃ xs, json_loads (attemptPayload pm.1 m) = some (.list xs))) :=
  ⟨fun h1 h2 h3 => safe_extract_json_clean_array pre body suf l h1 h2 h3,
   safe_extract_json_none_of_no_json text,
   safe_extract_json_isSome_iff text⟩

theorem safe_extract_json_c1_spec_witness :
    safe_extract_json ("prose ".data ++ ('[' :: "1, 2".data ++ [']']) ++
      " more [ prose".data) = some [.int 1, .int 2] ∧
    safe_extract_json "hello".data = none := by
  constructor
  · exact (safe_extract_json_c1_spec "prose ".data "1, 2".data
      " more [ prose".data "hello".data [.int 1, .int 2]).1
      (by decide) (by decide) (by rfl)
  · exact (safe_extract_json_c1_spec [] [] [] "hello".data []).2.1
      (no_json_in_of_runs "hello".data (by decide))

/-- C2, counterexample: on the response text holding two bracketed spans,
the source parser (non-greedy) decodes the first, smallest span and returns
its contents, while the specified greedy largest-span variant matches the
whole bracketed stretch, fails to decode it, and returns `none`: the
description "largest bracketed array span matched greedily" is false of the
code. -/
theorem safe_extract_json_c2_counterexample :
    safe_extract_json "[1] [2,3]".data = some [.int 1] ∧
    safe_extract_json_specGreedy "[1] [2,3]".data = none ∧
    ¬(safe_extract_json "[1] [2,3]".data =
        safe_extract_json_specGreedy "[1] [2,3]".data) := by
  refine ⟨rfl, rfl, ?_⟩
  intro h
  have h2 : (some [PyVal.int 1] : Option (List PyVal)) = none := h
  exact Option.noConfusion h2

/-- C2 (corrected): the parser is the first-success iteration over the
flattened attempt sequence — every match of the non-greedy smallest-span
bracketed array pattern, then of the json-fenced pattern, then of the plain
fenced pattern, then of the non-greedy bracketed object pattern; a decoded
object is wrapped in a one-element list, a decoded list is used as-is, any
other decoded JSON type or a decode error is swallowed and the next attempt
is tried; the first attempt in this order that succeeds wins, and the parser
returns `none` exactly when every attempt fails. -/
theorem safe_extract_json_c2_spec (text : List Char) (fenced : Bool)
    (m : List Char) (v : PyVal) (d : List (String × PyVal))
    (xs : List PyVal) (k : Nat) (a : Bool × List Char) (r : List PyVal) :
    (safe_extract_json text =
      firstSome (fun a2 => tryDecode a2.1 a2.2) (attemptList text)) ∧
    (safe_extract_json text = none ↔
      ∀ a2 ∈ attemptList text, tryDecode a2.1 a2.2 = none) ∧
    ((attemptList text)[k]? = some a → tryDecode a.1 a.2 = some r →
      (∀ k2 < k, ∀ a2, (attemptList text)[k2]? = some a2 →
        tryDecode a2.1 a2.2 = none) →
      safe_extract_json text = some r) ∧
    (json_loads (attemptPayload fenced m) = some (.dict d) →
      tryDecode fenced m = some [.dict d]) ∧
    (json_loads (attemptPayload fenced m) = some (.list xs) →
      tryDecode fenced m = some xs) ∧
    (json_loads (attemptPayload fenced m) = some v → (∀ d2, v ≠ .dict d2) →
      (∀ xs2, v ≠ .list xs2) → tryDecode fenced m = none) ∧
    (json_loads (attemptPayload fenced m) = none →
      tryDecode fenced m = none) := by
  refine ⟨safe_extract_json_eq_flat text, ?_, ?_,
    tryDecode_dict fenced m d, tryDecode_list fenced m xs,
    tryDecode_scalar fenced m v, tryDecode_none_of_loads_none fenced m⟩
  · rw [safe_extract_json_eq_flat text]
    exact firstSome_eq_none_iff _ _
  · intro hk hb hprev
    rw [safe_extract_json_eq_flat text]
    exact firstSome_first_wins _ _ k a r hk hb hprev

theorem safe_extract_json_c2_spec_witness :
    tryDecode false "\x7b\"a\": 1\x7d".data = some [.dict [("a", .int 1)]] ∧
    tryDecode false "[2]".data = some [.int 2] ∧
    tryDecode false "3".data = none ∧
    tryDecode true "x".data = none ∧
    safe_extract_json "[\"]\"] [7]".data = some [.int 7] := by
  refine ⟨?_, ?_, ?_, ?_, ?_⟩
  · exact (safe_extract_json_c2_spec [] false "\x7b\"a\": 1\x7d".data .null
      [("a", .int 1)] [] 0 (false, []) []).2.2.2.1 (by rfl)
  · exact (safe_extract_json_c2_spec [] false "[2]".data .null [] [.int 2]
      0 (false, []) []).2.2.2.2.1 (by rfl)
  · exact (safe_extract_json_c2_spec [] false "3".data (.int 3) [] [] 0
      (false, []) []).2.2.2.2.2.1 (by rfl) (by intro d2 h; cases h)
      (by intro xs2 h; cases h)
  · exact (safe_extract_json_c2_spec [] true "x".data .null [] [] 0
      (false, []) []).2.2.2.2.2.2 (by rfl)
  · exact (safe_extract_json_c2_spec "[\"]\"] [7]".data false [] .null [] []
      1 (false, "[7]".data) [.int 7]).2.2.1 (by rfl) (by rfl)
      (by
        intro k2 hk2 a2 ha2
        interval_cases k2
        have h0 : (attemptList "[\"]\"] [7]".data)[0]? =
            some ((false, "[\"]".data) : Bool × List Char) := rfl
        rw [h0] at ha2
        have ha3 : a2 = (false, "[\"]".data) := (Option.some.inj ha2).symm
        rw [ha3]
        rfl)

/-- C3: under the bound of three attempts, an extraction that fails
retryably (model-call exception or parse failure, the claim's enumerated
exit paths) on the first two attempts and parses successfully on the third
returns the success result with the remote release invoked exactly three
times, once per attempt; one that receives a response on the third attempt
whose parse also fails raises the terminal error carrying that last raw
response text, again with exactly three releases; and a successful first
attempt short-circuits the remaining retries, releasing exactly once. -/
theorem extract_data_with_gemini_c3_spec (a1 a2 a3 : AttemptSpec)
    (d : List PyVal) (t : String) :
    (failsRetryably a1 → failsRetryably a2 → attemptSucceedsWith a3 d →
      extract_data_with_gemini a1 a2 a3 = (.success d, 3)) ∧
    (failsRetryably a1 → failsRetryably a2 → attemptParseFails a3 t →
      extract_data_with_gemini a1 a2 a3 = (.parseFailed t, 3)) ∧
    (attemptSucceedsWith a1 d →
      extract_data_with_gemini a1 a2 a3 = (.success d, 1)) := by
  refine ⟨?_, ?_, ?_⟩
  · intro h1 h2 h3
    unfold extract_data_with_gemini
    rw [runAttempts_fail_step a1 a2 [a3] false 0 h1,
      runAttempts_fail_step a2 a3 [] (!a1.deleteOk) 1 h2,
      runAttempts_success a3 [] (!a2.deleteOk) 2 d h3]
  · intro h1 h2 h3
    unfold extract_data_with_gemini
    rw [runAttempts_fail_step a1 a2 [a3] false 0 h1,
      runAttempts_fail_step a2 a3 [] (!a1.deleteOk) 1 h2,
      runAttempts_last_parsefail a3 (!a2.deleteOk) 2 t h3]
  · intro h1
    unfold extract_data_with_gemini
    rw [runAttempts_success a1 [a2, a3] false 0 d h1]

theorem extract_data_with_gemini_c3_spec_witness :
    extract_data_with_gemini ⟨.genRaise "boom", true⟩
      ⟨.response "oops", true⟩ ⟨.response "[1]", true⟩ =
      (.success [.int 1], 3) ∧
    extract_data_with_gemini ⟨.genRaise "boom", true⟩
      ⟨.response "oops", true⟩ ⟨.response "still bad", true⟩ =
      (.parseFailed "still bad", 3) ∧
    extract_data_with_gemini ⟨.response "[1]", true⟩
      ⟨.genRaise "boom", true⟩ ⟨.genRaise "boom", true⟩ =
      (.success [.int 1], 1) := by
  refine ⟨?_, ?_, ?_⟩
  · exact (extract_data_with_gemini_c3_spec _ _ _ [.int 1] "").1
      (Or.inl ⟨"boom", rfl⟩) (Or.inr ⟨"oops", rfl, rfl⟩) ⟨"[1]", rfl, rfl⟩
  · exact (extract_data_with_gemini_c3_spec _ _ _ [] "still bad").2.1
      (Or.inl ⟨"boom", rfl⟩) (Or.inr ⟨"oops", rfl, rfl⟩) ⟨rfl, rfl⟩
  · exact (extract_data_with_gemini_c3_spec _ _ _ [.int 1] "").2.2
      ⟨"[1]", rfl, rfl⟩

/-- C4: on a record list, the Schema Normalizer drops every element that is
not a key-value mapping without failing (the output length is the number of
mapping elements), keeps every mapping element (with its fields completed),
and in a completed record every schema field is present: a field absent from
the input record is inserted with the sentinel string and a field present in
the input keeps its value unchanged. -/
theorem validate_and_fix_data_c4_spec (items : List PyVal)
    (d : List (String × PyVal)) (f k : String) :
    (∀ r ∈ validate_and_fix_data (.list items), ∃ d0, r = .dict d0 ∧
      ∀ g ∈ EXTRACTION_FIELDS, dictHas d0 g = true) ∧
    (PyVal.dict d ∈ items →
      PyVal.dict (fillFields EXTRACTION_FIELDS d) ∈
        validate_and_fix_data (.list items)) ∧
    (f ∈ EXTRACTION_FIELDS → dictHas d f = false →
      dictGet (fillFields EXTRACTION_FIELDS d) f = some (.str "N/A")) ∧
    (dictHas d k = true →
      dictGet (fillFields EXTRACTION_FIELDS d) k = dictGet d k) ∧
    (validate_and_fix_data (.list items)).length =
      (items.filter isDictB).length := by
  refine ⟨?_, ?_, fillFields_absent EXTRACTION_FIELDS d f,
    fun h => (fillFields_present EXTRACTION_FIELDS d k h).2,
    validate_length items⟩
  · intro r hr
    unfold validate_and_fix_data at hr
    rw [List.mem_filterMap] at hr
    obtain ⟨item, hit, hsome⟩ := hr
    cases item with
    | dict d0 =>
      simp only [Option.some.injEq] at hsome
      exact ⟨fillFields EXTRACTION_FIELDS d0, hsome.symm,
        fun g hg => fillFields_has_of_mem EXTRACTION_FIELDS d0 g hg⟩
    | str s => simp at hsome
    | int n => simp at hsome
    | float x => simp at hsome
    | bool b => simp at hsome
    | null => simp at hsome
    | list xs => simp at hsome
  · intro hd
    unfold validate_and_fix_data
    rw [List.mem_filterMap]
    exact ⟨.dict d, hd, rfl⟩

theorem validate_and_fix_data_c4_spec_witness :
    PyVal.dict (fillFields EXTRACTION_FIELDS [("성명", .str "A")]) ∈
      validate_and_fix_data (.list [.int 7, .dict [("성명", .str "A")]]) ∧
    dictGet (fillFields EXTRACTION_FIELDS [("성명", .str "A")]) "수입금액" =
      some (.str "N/A") ∧
    dictGet (fillFields EXTRACTION_FIELDS [("성명", .str "A")]) "성명" =
      some (.str "A") ∧
    (validate_and_fix_data
      (.list [.int 7, .dict [("성명", .str "A")]])).length = 1 := by
  refine ⟨?_, ?_, ?_, ?_⟩
  · exact (validate_and_fix_data_c4_spec [.int 7, .dict [("성명", .str "A")]]
      [("성명", .str "A")] "" "").2.1 (by simp)
  · exact (validate_and_fix_data_c4_spec [] [("성명", .str "A")]
      "수입금액" "").2.2.1 (by decide) (by decide)
  · exact (validate_and_fix_data_c4_spec [] [("성명", .str "A")] ""
      "성명").2.2.2.1 (by decide)
  · exact (validate_and_fix_data_c4_spec [.int 7, .dict [("성명", .str "A")]]
      [] "" "").2.2.2.2

/-- C5: `clean_currency` is total over Python values: every non-string
input yields the zero string; a string whose strip is empty or one of the
sentinel words yields the zero string; any other string yields its digit
characters, or the zero string when none remain (no leading-zero
normalization); the currency example cleans as specified; and the function
is idempotent on every string. -/
theorem clean_currency_c5_spec (v : PyVal) (s : String) :
    ((∀ t, v ≠ .str t) → clean_currency v = "0") ∧
    ((pyStrip s.data = [] ∨ pyStrip s.data = "없음".data ∨
        pyStrip s.data = "N/A".data) → clean_currency (.str s) = "0") ∧
    (¬(pyStrip s.data = [] ∨ pyStrip s.data = "없음".data ∨
        pyStrip s.data = "N/A".data) →
      clean_currency (.str s) =
        (if s.data.filter Char.isDigit = [] then "0"
         else ⟨s.data.filter Char.isDigit⟩)) ∧
    clean_currency (.str "1,234,000원") = "1234000" ∧
    clean_currency (.str (clean_currency (.str s))) =
      clean_currency (.str s) := by
  refine ⟨?_, ?_, ?_, rfl, clean_currency_str_idem s⟩
  · intro h
    cases v with
    | str t => exact absurd rfl (h t)
    | int n => rfl
    | float x => rfl
    | bool b => rfl
    | null => rfl
    | list xs => rfl
    | dict es => rfl
  · intro h
    show clean_currency_str s = "0"
    unfold clean_currency_str
    rw [if_pos h]
  · intro h
    show clean_currency_str s = _
    unfold clean_currency_str
    rw [if_neg h]

theorem clean_currency_c5_spec_witness :
    clean_currency .null = "0" ∧
    clean_currency (.str " N/A ") = "0" ∧
    clean_currency (.str "a1b2") = "12" ∧
    clean_currency (.str "1,234,000원") = "1234000" ∧
    clean_currency (.str (clean_currency (.str "0012"))) =
      clean_currency (.str "0012") := by
  refine ⟨?_, ?_, ?_, ?_, ?_⟩
  · exact (clean_currency_c5_spec .null "").1
      (fun t h => PyVal.noConfusion h)
  · exact (clean_currency_c5_spec .null " N/A ").2.1 (by decide)
  · exact (clean_currency_c5_spec .null "a1b2").2.2.1 (by decide)
  · exact (clean_currency_c5_spec .null "").2.2.2.1
  · exact (clean_currency_c5_spec .null "0012").2.2.2.2

/-- C6 (modelled from the spec, there being no executable merge in the
repository): the Singleton Merge Engine produces exactly one output record
per row-level record; every output record carries every singleton key with
its document-level value (document-level values winning any collision), and
on keys outside the singleton set the output record agrees with its
row-level record. -/
theorem mergeSingletons_c6_spec (S : List (String × PyVal))
    (R : List (List (String × PyVal))) (i : Nat)
    (row out : List (String × PyVal)) (hnd : (S.map Prod.fst).Nodup) :
    (mergeSingletons S R).length = R.length ∧
    (R[i]? = some row → (mergeSingletons S R)[i]? = some out →
      (∀ q ∈ S, dictGet out q.1 = some q.2) ∧
      (∀ k, (∀ q ∈ S, ¬(q.1 = k)) → dictGet out k = dictGet row k)) := by
  constructor
  · rw [mergeSingletons_eq_map]
    exact List.length_map R (overlayS S)
  · intro h1 h2
    rw [mergeSingletons_eq_map, List.getElem?_map, h1] at h2
    simp only [Option.map_some', Option.some.injEq] at h2
    subst h2
    exact ⟨fun q hq => overlayS_get_mem S hnd row q hq,
      fun k hk => overlayS_get_not_mem S row k hk⟩

theorem mergeSingletons_c6_spec_witness :
    (mergeSingletons [("성명", .str "김")]
      [[("수입금액", .int 1)], [("성명", .str "x"), ("상호", .str "B")]]).length = 2 ∧
    dictGet (overlayS [("성명", .str "김")] [("수입금액", .int 1)]) "성명" =
      some (.str "김") ∧
    dictGet (overlayS [("성명", .str "김")]
      [("성명", .str "x"), ("상호", .str "B")]) "성명" = some (.str "김") ∧
    dictGet (overlayS [("성명", .str "김")] [("수입금액", .int 1)]) "수입금액" =
      some (.int 1) := by
  have T := mergeSingletons_c6_spec [("성명", .str "김")]
    [[("수입금액", .int 1)], [("성명", .str "x"), ("상호", .str "B")]] 0
    [("수입금액", .int 1)] (overlayS [("성명", .str "김")] [("수입금액", .int 1)])
    (by decide)
  have T2 := mergeSingletons_c6_spec [("성명", .str "김")]
    [[("수입금액", .int 1)], [("성명", .str "x"), ("상호", .str "B")]] 1
    [("성명", .str "x"), ("상호", .str "B")]
    (overlayS [("성명", .str "김")] [("성명", .str "x"), ("상호", .str "B")])
    (by decide)
  refine ⟨T.1, ?_, ?_, ?_⟩
  · exact (T.2 rfl rfl).1 ("성명", .str "김") (by simp)
  · exact (T2.2 rfl rfl).1 ("성명", .str "김") (by simp)
  · exact (T.2 rfl rfl).2 "수입금액" (by decide)

/-- C7: a three-document batch whose second document fails terminally while
the first and third succeed with records never aborts: the tabular sink
receives exactly the rows of documents one and three in order, the error
trail receives exactly one record, for document two, carrying the error
text; the batch counters report one failure (hence two successes out of
three) and the aggregate number of rows added. -/
theorem runBatch_c7_spec (n1 n2 n3 : String)
    (x1 x2 x3 y1 y2 y3 z1 z2 z3 : AttemptSpec)
    (d1 d3 : List PyVal) (r2 : ExtractResult) (k1 k2 k3 : Nat) (m : String)
    (h1 : extract_data_with_gemini x1 x2 x3 = (.success d1, k1))
    (hv1 : (validate_and_fix_data (.list d1)).isEmpty = false)
    (h2 : extract_data_with_gemini y1 y2 y3 = (r2, k2))
    (hm2 : extractErrMsg r2 = some m)
    (h3 : extract_data_with_gemini z1 z2 z3 = (.success d3, k3))
    (hv3 : (validate_and_fix_data (.list d3)).isEmpty = false) :
    runBatch [⟨n1, x1, x2, x3⟩, ⟨n2, y1, y2, y3⟩, ⟨n3, z1, z2, z3⟩] =
      { sinkRows := buildRows n1 (validate_and_fix_data (.list d1)) ++
          buildRows n3 (validate_and_fix_data (.list d3)),
        errorLog := [(n2, m)],
        totalRowsAdded :=
          (buildRows n1 (validate_and_fix_data (.list d1))).length +
          (buildRows n3 (validate_and_fix_data (.list d3))).length,
        errorCount := 1 } ∧
    3 - (runBatch [⟨n1, x1, x2, x3⟩, ⟨n2, y1, y2, y3⟩,
      ⟨n3, z1, z2, z3⟩]).errorCount = 2 := by
  have hmain : runBatch [⟨n1, x1, x2, x3⟩, ⟨n2, y1, y2, y3⟩,
      ⟨n3, z1, z2, z3⟩] =
      { sinkRows := buildRows n1 (validate_and_fix_data (.list d1)) ++
          buildRows n3 (validate_and_fix_data (.list d3)),
        errorLog := [(n2, m)],
        totalRowsAdded :=
          (buildRows n1 (validate_and_fix_data (.list d1))).length +
          (buildRows n3 (validate_and_fix_data (.list d3))).length,
        errorCount := 1 } := by
    unfold runBatch
    rw [List.foldl_cons,
      processDoc_success_rows initState ⟨n1, x1, x2, x3⟩ d1 k1 h1 hv1,
      List.foldl_cons,
      processDoc_fail _ ⟨n2, y1, y2, y3⟩ r2 k2 m h2 hm2,
      List.foldl_cons,
      processDoc_success_rows _ ⟨n3, z1, z2, z3⟩ d3 k3 h3 hv3,
      List.foldl_nil]
    simp [initState]
  refine ⟨hmain, ?_⟩
  rw [hmain]
  rfl

theorem runBatch_c7_spec_witness :
    runBatch [⟨"a.pdf", ⟨.response "[\x7b\x7d]", true⟩,
        ⟨.genRaise "x", true⟩, ⟨.genRaise "x", true⟩⟩,
      ⟨"b.pdf", ⟨.genRaise "boom", true⟩, ⟨.genRaise "boom", true⟩,
        ⟨.genRaise "boom", true⟩⟩,
      ⟨"c.pdf", ⟨.response "[\x7b\x7d]", true⟩, ⟨.genRaise "x", true⟩,
        ⟨.genRaise "x", true⟩⟩] =
      { sinkRows :=
          buildRows "a.pdf" (validate_and_fix_data (.list [.dict []])) ++
          buildRows "c.pdf" (validate_and_fix_data (.list [.dict []])),
        errorLog := [("b.pdf", "boom")],
        totalRowsAdded :=
          (buildRows "a.pdf" (validate_and_fix_data (.list [.dict []]))).length +
          (buildRows "c.pdf" (validate_and_fix_data (.list [.dict []]))).length,
        errorCount := 1 } := by
  exact (runBatch_c7_spec "a.pdf" "b.pdf" "c.pdf"
    ⟨.response "[\x7b\x7d]", true⟩ ⟨.genRaise "x", true⟩ ⟨.genRaise "x", true⟩
    ⟨.genRaise "boom", true⟩ ⟨.genRaise "boom", true⟩ ⟨.genRaise "boom", true⟩
    ⟨.response "[\x7b\x7d]", true⟩ ⟨.genRaise "x", true⟩ ⟨.genRaise "x", true⟩
    [.dict []] [.dict []] (.raised "boom") 1 3 1 "boom"
    rfl rfl rfl rfl rfl rfl).1

/-- C8, counterexample: a document whose extraction succeeds with an empty
record list is not counted as a failure and produces no sink rows, but the
driver does append one record for it to the error trail ("유효한 데이터
없음"), contradicting the claim that no ErrorRecord is created for such a
document. -/
theorem runBatch_c8_counterexample :
    (runBatch [⟨"a.pdf", ⟨.response "[]", true⟩, ⟨.response "[]", true⟩,
        ⟨.response "[]", true⟩⟩]).errorLog =
      [("a.pdf", "유효한 데이터 없음")] ∧
    (runBatch [⟨"a.pdf", ⟨.response "[]", true⟩, ⟨.response "[]", true⟩,
        ⟨.response "[]", true⟩⟩]).errorCount = 0 ∧
    (runBatch [⟨"a.pdf", ⟨.response "[]", true⟩, ⟨.response "[]", true⟩,
        ⟨.response "[]", true⟩⟩]).sinkRows = [] ∧
    (runBatch [⟨"a.pdf", ⟨.response "[]", true⟩, ⟨.response "[]", true⟩,
        ⟨.response "[]", true⟩⟩]).totalRowsAdded = 0 :=
  ⟨rfl, rfl, rfl, rfl⟩

/-- C8 (corrected): for a document whose extraction succeeds but yields
zero valid records after normalization, the driver emits zero rows to the
tabular sink, leaves the row total and the failure counter unchanged (the
document is not counted as a failure in the summary), and appends exactly
one error-trail record for it with the fixed "no valid data" text — an
ErrorRecord is created, contrary to the original claim. -/
theorem processDoc_c8_spec (st : BatchState) (doc : DocSpec)
    (data : List PyVal) (k : Nat)
    (h : extract_data_with_gemini doc.a1 doc.a2 doc.a3 = (.success data, k))
    (hv : (validate_and_fix_data (.list data)).isEmpty = true) :
    (processDoc st doc).sinkRows = st.sinkRows ∧
    (processDoc st doc).totalRowsAdded = st.totalRowsAdded ∧
    (processDoc st doc).errorCount = st.errorCount ∧
    (processDoc st doc).errorLog =
      st.errorLog ++ [(doc.name, "유효한 데이터 없음")] := by
  rw [processDoc_success_empty st doc data k h hv]
  exact ⟨rfl, rfl, rfl, rfl⟩

theorem processDoc_c8_spec_witness :
    (processDoc initState ⟨"a.pdf", ⟨.response "[]", true⟩,
      ⟨.response "[]", true⟩, ⟨.response "[]", true⟩⟩).sinkRows = [] ∧
    (processDoc initState ⟨"a.pdf", ⟨.response "[]", true⟩,
      ⟨.response "[]", true⟩, ⟨.response "[]", true⟩⟩).totalRowsAdded = 0 ∧
    (processDoc initState ⟨"a.pdf", ⟨.response "[]", true⟩,
      ⟨.response "[]", true⟩, ⟨.response "[]", true⟩⟩).errorCount = 0 ∧
    (processDoc initState ⟨"a.pdf", ⟨.response "[]", true⟩,
      ⟨.response "[]", true⟩, ⟨.response "[]", true⟩⟩).errorLog =
      [("a.pdf", "유효한 데이터 없음")] := by
  exact processDoc_c8_spec initState ⟨"a.pdf", ⟨.response "[]", true⟩,
    ⟨.response "[]", true⟩, ⟨.response "[]", true⟩⟩ [] 1 rfl rfl

/-- C9: every row built for a document's validated records has length
`len(schema) + 2` — the document-identifier cell (the file name on the first
row, the empty string on every later row), the 1-based integer row index,
then exactly one cell per schema field in schema order, no field ever
missing; a schema field whose validated record holds the sentinel reaches
the row as the sentinel string, cleaned to the zero string for
currency-designated fields. -/
theorem buildRows_c9_spec (file : String) (data : List PyVal) (i j : Nat)
    (row : List PyVal) (d0 : List (String × PyVal)) (fld : String)
    (h : (buildRows file (validate_and_fix_data (.list data)))[i]? =
      some row) :
    row.length = EXTRACTION_FIELDS.length + 2 ∧
    row[0]? = some (.str (if i = 0 then file else "")) ∧
    row[1]? = some (.int (Int.ofNat (i + 1))) ∧
    (EXTRACTION_FIELDS[j]? = some fld → ∃ s, row[j + 2]? = some (.str s)) ∧
    ((validate_and_fix_data (.list data))[i]? = some (.dict d0) →
      EXTRACTION_FIELDS[j]? = some fld →
      dictGet d0 fld = some (.str "N/A") →
      row[j + 2]? =
        some (.str (if fld ∈ currency_fields then "0" else "N/A"))) := by
  rw [buildRows_get] at h
  cases hv : (validate_and_fix_data (.list data))[i]? with
  | none => rw [hv] at h; simp at h
  | some v =>
    rw [hv] at h
    simp only [Option.map_some', Option.some.injEq] at h
    subst h
    refine ⟨buildRow_length file i v, buildRow_get_zero file i v,
      buildRow_get_one file i v, ?_, ?_⟩
    · intro hf
      rw [buildRow_get_cell, hf]
      obtain ⟨s, hs⟩ := buildCell_is_str (rowEntries v) fld
      exact ⟨s, by rw [Option.map_some', hs]⟩
    · intro hvd hf hget
      have hveq : v = .dict d0 := Option.some.inj hvd
      subst hveq
      rw [buildRow_get_cell, hf, Option.map_some']
      rw [show rowEntries (.dict d0) = d0 from rfl]
      rw [buildCell_sentinel d0 fld (Or.inr hget)]

theorem buildRows_c9_spec_witness :
    (buildRow "f.pdf" 0
      (.dict (fillFields EXTRACTION_FIELDS [("성명", .str "A")]))).length =
      EXTRACTION_FIELDS.length + 2 ∧
    (buildRow "f.pdf" 0
      (.dict (fillFields EXTRACTION_FIELDS [("성명", .str "A")])))[0]? =
      some (.str "f.pdf") ∧
    (buildRow "f.pdf" 0
      (.dict (fillFields EXTRACTION_FIELDS [("성명", .str "A")])))[1]? =
      some (.int 1) ∧
    (buildRow "f.pdf" 0
      (.dict (fillFields EXTRACTION_FIELDS [("성명", .str "A")])))[27 + 2]? =
      some (.str "0") := by
  have T := buildRows_c9_spec "f.pdf" [.dict [("성명", .str "A")]] 0 27
    (buildRow "f.pdf" 0
      (.dict (fillFields EXTRACTION_FIELDS [("성명", .str "A")])))
    (fillFields EXTRACTION_FIELDS [("성명", .str "A")]) "수입금액" rfl
  refine ⟨T.1, T.2.1, T.2.2.1, ?_⟩
  exact T.2.2.2.2 rfl rfl (by rfl)

/-- C10, counterexample: in a row actually appended to the tabular sink,
the row-index cell is the Python integer 1, not a string: the claim that
every cell of the row is a string is false. -/
theorem sink_cell_c10_counterexample :
    ((runBatch [⟨"a.pdf", ⟨.response "[\x7b\x7d]", true⟩,
        ⟨.genRaise "x", true⟩, ⟨.genRaise "x", true⟩⟩]).sinkRows[0]?.bind
      (fun r => r[1]?)) = some (.int 1) ∧
    isStrCell (.int 1) = false :=
  ⟨rfl, rfl⟩

/-- C10 (corrected): in every appended row the document-identifier cell is
a string and the row-index cell is the integer i+1 (not a string); every
schema-field cell is a string, and every currency-designated field cell is
a nonempty all-digit string; in particular a currency field holding the
sentinel reaches the sink as the zero string, never as the sentinel. -/
theorem sink_cells_c10_spec (file : String) (data : List PyVal) (i j : Nat)
    (row : List PyVal) (fld : String)
    (h : (buildRows file (validate_and_fix_data (.list data)))[i]? =
      some row)
    (hf : EXTRACTION_FIELDS[j]? = some fld) :
    (∃ s, row[0]? = some (.str s)) ∧
    row[1]? = some (.int (Int.ofNat (i + 1))) ∧
    (∃ s, row[j + 2]? = some (.str s) ∧
      (fld ∈ currency_fields → s.data ≠ [] ∧
        ∀ c ∈ s.data, c.isDigit = true)) ∧
    (∀ d0, (validate_and_fix_data (.list data))[i]? = some (.dict d0) →
      dictGet d0 fld = some (.str "N/A") → fld ∈ currency_fields →
      row[j + 2]? = some (.str "0")) := by
  rw [buildRows_get] at h
  cases hv : (validate_and_fix_data (.list data))[i]? with
  | none => rw [hv] at h; simp at h
  | some v =>
    rw [hv] at h
    simp only [Option.map_some', Option.some.injEq] at h
    subst h
    refine ⟨⟨_, buildRow_get_zero file i v⟩, buildRow_get_one file i v,
      ?_, ?_⟩
    · by_cases hc : fld ∈ currency_fields
      · obtain ⟨s, hs, hne, hdig⟩ :=
          buildCell_currency_digits (rowEntries v) fld hc
        refine ⟨s, ?_, fun _ => ⟨hne, hdig⟩⟩
        rw [buildRow_get_cell, hf, Option.map_some', hs]
      · obtain ⟨s, hs⟩ := buildCell_is_str (rowEntries v) fld
        refine ⟨s, ?_, fun hc2 => absurd hc2 hc⟩
        rw [buildRow_get_cell, hf, Option.map_some', hs]
    · intro d0 hvd hget hc
      have hveq : v = .dict d0 := Option.some.inj hvd
      subst hveq
      rw [buildRow_get_cell, hf, Option.map_some']
      rw [show rowEntries (.dict d0) = d0 from rfl]
      rw [buildCell_sentinel d0 fld (Or.inr hget), if_pos hc]

theorem sink_cells_c10_spec_witness :
    (buildRow "f.pdf" 0
      (.dict (fillFields EXTRACTION_FIELDS [("성명", .str "A")])))[1]? =
      some (.int 1) ∧
    (buildRow "f.pdf" 0
      (.dict (fillFields EXTRACTION_FIELDS [("성명", .str "A")])))[27 + 2]? =
      some (.str "0") := by
  have T := sink_cells_c10_spec "f.pdf" [.dict [("성명", .str "A")]] 0 27
    (buildRow "f.pdf" 0
      (.dict (fillFields EXTRACTION_FIELDS [("성명", .str "A")])))
    "수입금액" rfl rfl
  exact ⟨T.2.1, T.2.2.2 (fillFields EXTRACTION_FIELDS [("성명", .str "A")])
    rfl (by rfl) (by decide)⟩
